import Mathlib

/-!
# Verification of the amount-conversion core of `testnet12Faucet`

This file shallowly embeds the two functions of `src/config.rs` that carry
all of the validation and arithmetic logic of the repository:

* `parse_kas_to_sompi` — parses a decimal KAS string into a sompi amount
  (an unsigned 64-bit integer, 1 KAS = 10^8 sompi);
* `deserialize_amount_per_claim` — resolves the three accepted shapes of the
  `amount_per_claim` configuration field (integer sompi, float KAS,
  string) to one sompi integer.

Strings are embedded as `List Char`; Rust `u64` values are embedded as `Nat`
with explicit `< 2 ^ 64` bounds where the code uses checked arithmetic.
Fallible operations return `Except String Nat` carrying the exact error
messages of the source.
-/

/-- Unicode `White_Space` test on a character, as used by Rust's
`str::trim` (`char::is_whitespace`). -/
def isWsChar (c : Char) : Bool :=
  (9 ≤ c.toNat && c.toNat ≤ 13) || c.toNat = 32 || c.toNat = 133 ||
  c.toNat = 160 || c.toNat = 5760 || (8192 ≤ c.toNat && c.toNat ≤ 8202) ||
  c.toNat = 8232 || c.toNat = 8233 || c.toNat = 8239 || c.toNat = 8287 ||
  c.toNat = 12288

/-- ASCII decimal digit test, as used by Rust's integer `FromStr`. -/
def isDigitChar (c : Char) : Bool :=
  48 ≤ c.toNat && c.toNat ≤ 57

/-- Remove leading whitespace (the leading half of Rust's `str::trim`). -/
def ltrimChars (l : List Char) : List Char :=
  l.dropWhile isWsChar

/-- Remove trailing whitespace (the trailing half of Rust's `str::trim`). -/
def rtrimChars (l : List Char) : List Char :=
  (l.reverse.dropWhile isWsChar).reverse

/-- Rust's `str::trim`: remove leading and trailing whitespace. -/
def trimChars (l : List Char) : List Char :=
  rtrimChars (ltrimChars l)

/-- Rust's `str::split('.')`: the list of `'.'`-separated segments.  Always
nonempty; adjacent or terminal dots yield empty segments. -/
def splitDot : List Char → List (List Char)
  | [] => [[]]
  | c :: rest =>
    if c = '.' then [] :: splitDot rest
    else (c :: (splitDot rest).headD []) :: (splitDot rest).tail

/-- The numeric value of a digit string read left to right in base 10
(Rust's accumulation loop inside integer `FromStr`). -/
def digitsToNat (l : List Char) : Nat :=
  l.foldl (fun a c => a * 10 + (c.toNat - 48)) 0

/-- Rust's `u64::from_str` (`"...".parse::<u64>()`): an optional leading
`'+'`, then one or more ASCII digits, with the value required to fit in an
unsigned 64-bit integer.  A leading `'-'`, interior whitespace, or any
non-digit character is rejected. -/
def parseU64 (l : List Char) : Option Nat :=
  let ds := match l with
    | c :: r => if c = '+' then r else l
    | [] => l
  if ds.isEmpty then none
  else if ds.all isDigitChar then
    if digitsToNat ds < 2 ^ 64 then some (digitsToNat ds) else none
  else none

/-- Rust's `u64::checked_mul` on values already `< 2 ^ 64`. -/
def checked_mul (a b : Nat) : Option Nat :=
  if a * b < 2 ^ 64 then some (a * b) else none

/-- Rust's `u64::checked_add` on values already `< 2 ^ 64`. -/
def checked_add (a b : Nat) : Option Nat :=
  if a + b < 2 ^ 64 then some (a + b) else none

/-- The fraction handling of `parse_kas_to_sompi` (src/config.rs lines
22-43), given the parsed whole part and the trimmed fractional segment:
length check, right-padding with `'0'` to 8 digits, fractional parse, and
the checked `whole * 10^8 + frac` arithmetic. -/
def parseFrac (whole : Nat) (frac_str : List Char) : Except String Nat :=
  if 8 < frac_str.length then .error "invalid amount: max 8 decimal places"
  else
    match (if (frac_str ++ List.replicate (8 - frac_str.length) '0').isEmpty
           then some 0
           else parseU64 (frac_str ++ List.replicate (8 - frac_str.length) '0')) with
    | none => .error "invalid amount: fractional part is not a number"
    | some frac_value =>
      match checked_mul whole 100000000 with
      | none => .error "amount overflows u64"
      | some v =>
        match checked_add v frac_value with
        | none => .error "amount overflows u64"
        | some r => .ok r

/-- The body of `parse_kas_to_sompi` after the trim and emptiness check
(src/config.rs lines 11-43): split on `'.'`, reject a third segment, parse
the trimmed whole segment as `u64`, then process the fraction. -/
def parseTrimmed (raw : List Char) : Except String Nat :=
  if 3 ≤ (splitDot raw).length then
    .error "invalid amount: too many decimal points"
  else
    match parseU64 (trimChars ((splitDot raw).headD ['0'])) with
    | none => .error "invalid amount: whole part is not a number"
    | some whole => parseFrac whole (trimChars (((splitDot raw)[1]?).getD []))

/-- The function `parse_kas_to_sompi` of src/config.rs lines 4-44: convert
a decimal KAS string to sompi (1 KAS = 10^8 sompi), or fail with the
source's error message. -/
def parse_kas_to_sompi (s : List Char) : Except String Nat :=
  if (trimChars s).isEmpty then .error "amount is empty"
  else parseTrimmed (trimChars s)

/-- An `f64` value as observed by `deserialize_amount_per_claim`: the code
inspects only `f.is_finite()`, the comparison `f < 0.0`, and the rendering
`format!("{:.8}", f)`; these three observations embed the float
abstractly. -/
structure F64 where
  isFinite : Bool
  isNeg : Bool
  fmt8 : List Char

/-- The untagged `AmountField` enum of `deserialize_amount_per_claim`
(src/config.rs lines 50-56): integer sompi, float KAS, or string. -/
inductive AmountField where
  | Sompi (s : Nat)
  | KasFloat (f : F64)
  | KasString (s : List Char)

/-- The resolution logic of `deserialize_amount_per_claim` (src/config.rs
lines 57-85): integers pass through, floats are guarded then formatted to 8
decimals and converted, strings are trimmed and either converted (if they
contain `'.'`) or parsed directly as `u64`. -/
def deserialize_amount_per_claim : AmountField → Except String Nat
  | .Sompi s => .ok s
  | .KasFloat f =>
    if !f.isFinite || f.isNeg then
      .error "amount_per_claim must be a finite number >= 0"
    else parse_kas_to_sompi f.fmt8
  | .KasString s =>
    if (trimChars s).isEmpty then .error "amount_per_claim is empty"
    else if (trimChars s).any (fun c => c = '.') then
      parse_kas_to_sompi (trimChars s)
    else
      match parseU64 (trimChars s) with
      | some v => .ok v
      | none =>
        .error "amount_per_claim must be a u64 sompi integer or a KAS decimal string"

deriving instance DecidableEq for Except

/-- The value of the fractional segment right-padded with `'0'` to 8 digits
and read as an integer — the `pad(F, 8)` of the specification. -/
def padVal (F : List Char) : Nat :=
  digitsToNat (F ++ List.replicate (8 - F.length) '0')

/-- The whole part an input parses to: the first `'.'`-segment of the
trimmed input, trimmed again and parsed as `u64` — read directly off the
pipeline of `parse_kas_to_sompi`. -/
def wholePartOf (s : List Char) : Option Nat :=
  parseU64 (trimChars ((splitDot (trimChars s)).headD ['0']))

/-- The padded fractional value an input parses to: the second
`'.'`-segment of the trimmed input (empty when absent), trimmed,
right-padded with `'0'` to 8 digits and parsed as `u64` — read directly off
the pipeline of `parse_kas_to_sompi`. -/
def fracValOf (s : List Char) : Option Nat :=
  parseU64 (trimChars (((splitDot (trimChars s))[1]?).getD []) ++
    List.replicate
      (8 - (trimChars (((splitDot (trimChars s))[1]?).getD [])).length) '0')

/-- The shared tail of the conversion pipeline once the split has produced a
whole segment and a (possibly empty) fractional segment. -/
def afterSplit (wholeSeg fracSeg : List Char) : Except String Nat :=
  match parseU64 (trimChars wholeSeg) with
  | none => .error "invalid amount: whole part is not a number"
  | some whole => parseFrac whole (trimChars fracSeg)

lemma digit_not_ws {c : Char} (h : isDigitChar c = true) : isWsChar c = false := by
  unfold isDigitChar at h
  unfold isWsChar
  simp only [Bool.and_eq_true, decide_eq_true_eq] at h
  simp only [Bool.or_eq_false_iff, Bool.and_eq_false_iff, decide_eq_false_iff_not]
  omega

lemma digit_ne_dot {c : Char} (h : isDigitChar c = true) : c ≠ '.' := by
  intro e
  subst e
  exact absurd h (by decide)

lemma dropWhile_eq_self_of_head {p : Char → Bool} {l : List Char}
    (h : ∀ c ∈ l.head?, p c = false) : l.dropWhile p = l := by
  cases l with
  | nil => rfl
  | cons a t =>
    have ha : p a = false := h a (by simp)
    simp [List.dropWhile_cons, ha]

lemma ltrim_eq_self {l : List Char} (h : ∀ c ∈ l.head?, isWsChar c = false) :
    ltrimChars l = l :=
  dropWhile_eq_self_of_head h

lemma rtrim_eq_self {l : List Char} (h : ∀ c ∈ l.getLast?, isWsChar c = false) :
    rtrimChars l = l := by
  unfold rtrimChars
  have h' : ∀ c ∈ l.reverse.head?, isWsChar c = false := by
    rw [List.head?_reverse]
    exact h
  rw [dropWhile_eq_self_of_head h', List.reverse_reverse]

lemma trim_eq_self {l : List Char} (h1 : ∀ c ∈ l.head?, isWsChar c = false)
    (h2 : ∀ c ∈ l.getLast?, isWsChar c = false) : trimChars l = l := by
  unfold trimChars
  rw [ltrim_eq_self h1, rtrim_eq_self h2]

lemma trim_of_all_nonws {l : List Char} (h : ∀ c ∈ l, isWsChar c = false) :
    trimChars l = l :=
  trim_eq_self (fun c hc => h c (List.mem_of_mem_head? hc))
    (fun c hc => h c (List.mem_of_mem_getLast? hc))

lemma trim_of_all_ws {l : List Char} (h : ∀ c ∈ l, isWsChar c = true) :
    trimChars l = [] := by
  unfold trimChars ltrimChars rtrimChars
  rw [List.dropWhile_eq_nil_iff.mpr h]
  rfl

lemma splitDot_ne_nil (l : List Char) : splitDot l ≠ [] := by
  cases l with
  | nil => simp [splitDot]
  | cons c t =>
    simp only [splitDot]
    split <;> simp

lemma splitDot_no_dot {l : List Char} (h : '.' ∉ l) : splitDot l = [l] := by
  induction l with
  | nil => rfl
  | cons c t ih =>
    have hc : ¬ (c = '.') := fun e => h (e ▸ List.mem_cons_self c t)
    have ht : '.' ∉ t := fun m => h (List.mem_cons_of_mem _ m)
    simp [splitDot, hc, ih ht]

lemma splitDot_append {A R : List Char} (h : '.' ∉ A) :
    splitDot (A ++ '.' :: R) = A :: splitDot R := by
  induction A with
  | nil => simp [splitDot]
  | cons c t ih =>
    have hc : ¬ (c = '.') := fun e => h (e ▸ List.mem_cons_self c t)
    have ht : '.' ∉ t := fun m => h (List.mem_cons_of_mem _ m)
    simp [splitDot, hc, ih ht]

lemma foldl_digits_lt :
    ∀ (l : List Char) (a : Nat), (∀ c ∈ l, isDigitChar c = true) →
      List.foldl (fun a c => a * 10 + (c.toNat - 48)) a l < (a + 1) * 10 ^ l.length := by
  intro l
  induction l with
  | nil => intro a _; simp
  | cons c t ih =>
    intro a h
    have hd : c.toNat - 48 ≤ 9 := by
      have hc := h c (List.mem_cons_self c t)
      unfold isDigitChar at hc
      simp only [Bool.and_eq_true, decide_eq_true_eq] at hc
      omega
    have hstep := ih (a * 10 + (c.toNat - 48)) (fun x hx => h x (List.mem_cons_of_mem _ hx))
    have h1 : a * 10 + (c.toNat - 48) + 1 ≤ (a + 1) * 10 := by omega
    calc List.foldl (fun a c => a * 10 + (c.toNat - 48)) a (c :: t)
        = List.foldl (fun a c => a * 10 + (c.toNat - 48)) (a * 10 + (c.toNat - 48)) t := by
          simp
      _ < (a * 10 + (c.toNat - 48) + 1) * 10 ^ t.length := hstep
      _ ≤ ((a + 1) * 10) * 10 ^ t.length := Nat.mul_le_mul_right _ h1
      _ = (a + 1) * 10 ^ (c :: t).length := by
          simp [List.length_cons, pow_succ]
          ring

lemma digitsToNat_lt {l : List Char} (h : ∀ c ∈ l, isDigitChar c = true) :
    digitsToNat l < 10 ^ l.length := by
  have := foldl_digits_lt l 0 h
  simpa [digitsToNat] using this

lemma parseU64_of_digits {l : List Char} (hne : l ≠ [])
    (h : ∀ c ∈ l, isDigitChar c = true) (hlt : digitsToNat l < 2 ^ 64) :
    parseU64 l = some (digitsToNat l) := by
  cases l with
  | nil => exact absurd rfl hne
  | cons c t =>
    have hc : ¬ (c = '+') := by
      intro e
      have hd := h c (List.mem_cons_self c t)
      rw [e] at hd
      exact absurd hd (by decide)
    have hlt' : digitsToNat (c :: t) < 18446744073709551616 := by
      have e : (2 : Nat) ^ 64 = 18446744073709551616 := by norm_num
      omega
    simp [parseU64, hc, List.all_eq_true.mpr h, hlt']

lemma parseU64_some_inv {l : List Char} {v : Nat} (h : parseU64 l = some v) :
    ∃ ds : List Char, (l = ds ∨ l = '+' :: ds) ∧ ds ≠ [] ∧
      (∀ c ∈ ds, isDigitChar c = true) ∧ digitsToNat ds = v ∧ v < 2 ^ 64 := by
  cases l with
  | nil => simp [parseU64] at h
  | cons c t =>
    have hpow : (2 : Nat) ^ 64 = 18446744073709551616 := by norm_num
    by_cases hc : c = '+'
    · subst hc
      simp [parseU64, List.isEmpty_iff] at h
      obtain ⟨hne, hall, hlt, hv⟩ := h
      exact ⟨t, Or.inr rfl, hne, hall, hv, by omega⟩
    · simp [parseU64, hc, List.isEmpty_iff] at h
      obtain ⟨⟨hc0, hall⟩, hlt, hv⟩ := h
      refine ⟨c :: t, Or.inl rfl, by simp, ?_, hv, by omega⟩
      intro x hx
      rcases List.mem_cons.mp hx with rfl | hm
      · exact hc0
      · exact hall x hm

lemma parseU64_chars {l : List Char} {v : Nat} (h : parseU64 l = some v) :
    ∀ c ∈ l, isWsChar c = false ∧ c ≠ '.' := by
  obtain ⟨ds, hl, _, hdig, _, _⟩ := parseU64_some_inv h
  intro c hc
  have hplus : isWsChar '+' = false ∧ ('+' : Char) ≠ '.' := by decide
  cases hl with
  | inl e =>
    subst e
    exact ⟨digit_not_ws (hdig c hc), digit_ne_dot (hdig c hc)⟩
  | inr e =>
    subst e
    rcases List.mem_cons.mp hc with rfl | hm
    · exact hplus
    · exact ⟨digit_not_ws (hdig c hm), digit_ne_dot (hdig c hm)⟩

lemma padded_digits {F : List Char} (hd : ∀ c ∈ F, isDigitChar c = true) :
    ∀ c ∈ F ++ List.replicate (8 - F.length) '0', isDigitChar c = true := by
  intro c hc
  rcases List.mem_append.mp hc with hm | hm
  · exact hd c hm
  · rw [List.eq_of_mem_replicate hm]
    decide

lemma padded_length {F : List Char} (hlen : F.length ≤ 8) :
    (F ++ List.replicate (8 - F.length) '0').length = 8 := by
  simp [List.length_append, List.length_replicate]
  omega

lemma padVal_lt {F : List Char} (hd : ∀ c ∈ F, isDigitChar c = true)
    (hlen : F.length ≤ 8) : padVal F < 100000000 := by
  have h := digitsToNat_lt (padded_digits hd)
  rw [padded_length hlen] at h
  have e : (10 : Nat) ^ 8 = 100000000 := by norm_num
  unfold padVal
  omega

lemma parseFrac_digits {w : Nat} {F : List Char} (hd : ∀ c ∈ F, isDigitChar c = true)
    (hlen : F.length ≤ 8) :
    parseFrac w F =
      if w * 100000000 + padVal F < 2 ^ 64 then .ok (w * 100000000 + padVal F)
      else .error "amount overflows u64" := by
  have hpadne : F ++ List.replicate (8 - F.length) '0' ≠ [] := by
    intro e
    have := congrArg List.length e
    rw [padded_length hlen] at this
    simp at this
  have hmain : parseU64 (F ++ List.replicate (8 - F.length) '0') = some (padVal F) := by
    apply parseU64_of_digits hpadne (padded_digits hd)
    have h1 : padVal F < 100000000 := padVal_lt hd hlen
    unfold padVal at h1
    have e : (2 : Nat) ^ 64 = 18446744073709551616 := by norm_num
    omega
  unfold parseFrac
  rw [if_neg (by omega : ¬ 8 < F.length)]
  rw [if_neg (by simp [List.isEmpty_iff, hpadne] : ¬ ((F ++ List.replicate (8 - F.length) '0').isEmpty = true))]
  rw [hmain]
  simp only [checked_mul, checked_add]
  by_cases hmul : w * 100000000 < 2 ^ 64
  · rw [if_pos hmul]
    dsimp only
    by_cases hadd : w * 100000000 + padVal F < 2 ^ 64
    · rw [if_pos hadd, if_pos hadd]
    · rw [if_neg hadd, if_neg hadd]
  · rw [if_neg hmul,
      if_neg (by omega : ¬ w * 100000000 + padVal F < 2 ^ 64)]

lemma parse_two_seg {W F : List Char} (hW : '.' ∉ W) (hF : '.' ∉ F)
    (hh : ∀ c ∈ W.head?, isWsChar c = false)
    (hl : ∀ c ∈ F.getLast?, isWsChar c = false) :
    parse_kas_to_sompi (W ++ '.' :: F) = afterSplit W F := by
  have htr : trimChars (W ++ '.' :: F) = W ++ '.' :: F := by
    apply trim_eq_self
    · intro c hc
      cases W with
      | nil =>
        simp at hc
        subst hc
        decide
      | cons a t =>
        simp at hc
        subst hc
        exact hh a (by simp)
    · intro c hc
      rw [List.getLast?_append_of_ne_nil _ (by simp : ('.' :: F) ≠ [])] at hc
      cases F with
      | nil =>
        simp at hc
        subst hc
        decide
      | cons f fs =>
        rw [List.getLast?_cons_cons] at hc
        exact hl c hc
  unfold parse_kas_to_sompi
  rw [htr]
  rw [if_neg (by simp [List.isEmpty_iff] : ¬ ((W ++ '.' :: F).isEmpty = true))]
  unfold parseTrimmed
  rw [splitDot_append hW, splitDot_no_dot hF]
  simp [afterSplit]

lemma parse_one_seg {W : List Char} (hW : '.' ∉ W) (hne : W ≠ [])
    (hh : ∀ c ∈ W.head?, isWsChar c = false)
    (hl : ∀ c ∈ W.getLast?, isWsChar c = false) :
    parse_kas_to_sompi W = afterSplit W [] := by
  have htr : trimChars W = W := trim_eq_self hh hl
  unfold parse_kas_to_sompi
  rw [htr]
  rw [if_neg (by simp [List.isEmpty_iff, hne] : ¬ (W.isEmpty = true))]
  unfold parseTrimmed
  rw [splitDot_no_dot hW]
  simp [afterSplit]

lemma parseU64_head {l : List Char} {v : Nat} (h : parseU64 l = some v) :
    ∀ c ∈ l.head?, isWsChar c = false :=
  fun c hc => (parseU64_chars h c (List.mem_of_mem_head? hc)).1

lemma parseU64_last {l : List Char} {v : Nat} (h : parseU64 l = some v) :
    ∀ c ∈ l.getLast?, isWsChar c = false :=
  fun c hc => (parseU64_chars h c (List.mem_of_mem_getLast? hc)).1

lemma parseU64_no_dot {l : List Char} {v : Nat} (h : parseU64 l = some v) :
    '.' ∉ l :=
  fun m => (parseU64_chars h _ m).2 rfl

lemma parseU64_ne_nil {l : List Char} {v : Nat} (h : parseU64 l = some v) :
    l ≠ [] := by
  rintro rfl
  simp [parseU64] at h

lemma afterSplit_digits {W F : List Char} {w : Nat} (hW : parseU64 W = some w)
    (hF : ∀ c ∈ F, isDigitChar c = true) (hlen : F.length ≤ 8) :
    afterSplit W F =
      if w * 100000000 + padVal F < 2 ^ 64 then .ok (w * 100000000 + padVal F)
      else .error "amount overflows u64" := by
  unfold afterSplit
  rw [trim_of_all_nonws (fun c hc => (parseU64_chars hW c hc).1), hW]
  dsimp only
  rw [trim_of_all_nonws (fun c hc => digit_not_ws (hF c hc))]
  exact parseFrac_digits hF hlen

/-- C1: for every decimal string `W.F` where `W` parses as an unsigned
64-bit integer, `F` is at most 8 decimal digits, and `W * 10^8 + pad(F, 8)`
fits in an unsigned 64-bit integer, `parse_kas_to_sompi` returns exactly
`W * 10^8 + pad(F, 8)`; in particular it maps `"1.5"` to `150000000` and
`"0.00000001"` to `1`. -/
theorem convert_valid_decimal :
    (∀ (W F : List Char) (w : Nat), parseU64 W = some w →
      (∀ c ∈ F, isDigitChar c = true) → F.length ≤ 8 →
      w * 100000000 + padVal F < 2 ^ 64 →
      parse_kas_to_sompi (W ++ '.' :: F) = .ok (w * 100000000 + padVal F)) ∧
    parse_kas_to_sompi "1.5".data = .ok 150000000 ∧
    parse_kas_to_sompi "0.00000001".data = .ok 1 := by
  refine ⟨?_, by decide, by decide⟩
  intro W F w hW hF hlen hfit
  have hFdot : '.' ∉ F := fun m => digit_ne_dot (hF _ m) rfl
  rw [parse_two_seg (parseU64_no_dot hW) hFdot (parseU64_head hW)
      (fun c hc => digit_not_ws (hF c (List.mem_of_mem_getLast? hc)))]
  rw [afterSplit_digits hW hF hlen]
  exact if_pos hfit

/-- Witness for C1 at `W = "1"`, `F = "5"`. -/
theorem convert_valid_decimal_witness :
    parse_kas_to_sompi ("1".data ++ '.' :: "5".data) = .ok 150000000 :=
  convert_valid_decimal.1 "1".data "5".data 1 (by decide) (by decide)
    (by decide) (by decide)

/-- C3: whenever the whole part parses as an unsigned 64-bit integer but
`whole * 10^8 + frac` (or already `whole * 10^8` by itself) does not fit in
an unsigned 64-bit integer, the checked multiplication/addition chain of
`parse_kas_to_sompi` fails with the overflow error instead of wrapping. -/
theorem convert_overflow_checked :
    (∀ (W F : List Char) (w : Nat), parseU64 W = some w →
      (∀ c ∈ F, isDigitChar c = true) → F.length ≤ 8 →
      2 ^ 64 ≤ w * 100000000 + padVal F →
      parse_kas_to_sompi (W ++ '.' :: F) = .error "amount overflows u64") ∧
    (∀ (W : List Char) (w : Nat), parseU64 W = some w →
      2 ^ 64 ≤ w * 100000000 →
      parse_kas_to_sompi W = .error "amount overflows u64") := by
  constructor
  · intro W F w hW hF hlen hover
    have hFdot : '.' ∉ F := fun m => digit_ne_dot (hF _ m) rfl
    rw [parse_two_seg (parseU64_no_dot hW) hFdot (parseU64_head hW)
        (fun c hc => digit_not_ws (hF c (List.mem_of_mem_getLast? hc)))]
    rw [afterSplit_digits hW hF hlen]
    exact if_neg (by omega)
  · intro W w hW hover
    rw [parse_one_seg (parseU64_no_dot hW) (parseU64_ne_nil hW)
      (parseU64_head hW) (parseU64_last hW)]
    rw [afterSplit_digits hW (F := []) (by simp) (by simp)]
    have hp0 : padVal [] = 0 := by decide
    rw [hp0]
    exact if_neg (by omega)

/-- Witness for C3: `"184467440737.09551616"` overflows only after adding
the fraction (`whole * 10^8 = 2^64 - 9551616`), and `"200000000000"`
overflows in the multiplication alone. -/
theorem convert_overflow_checked_witness :
    parse_kas_to_sompi ("184467440737".data ++ '.' :: "09551616".data) =
      .error "amount overflows u64" ∧
    parse_kas_to_sompi "200000000000".data = .error "amount overflows u64" :=
  ⟨convert_overflow_checked.1 "184467440737".data "09551616".data
      184467440737 (by decide) (by decide) (by decide) (by decide),
    convert_overflow_checked.2 "200000000000".data 200000000000
      (by decide) (by decide)⟩

/-- C7: a trailing `'.'` with an empty fraction is valid and equivalent to
no fraction at all: both `W.` and `W` convert to `W * 10^8` whenever `W`
parses as an unsigned 64-bit integer and `W * 10^8` fits; in particular
`"100"` converts to `10000000000`. -/
theorem convert_trailing_dot_equiv :
    (∀ (W : List Char) (w : Nat), parseU64 W = some w →
      w * 100000000 < 2 ^ 64 →
      parse_kas_to_sompi (W ++ ['.']) = .ok (w * 100000000) ∧
      parse_kas_to_sompi W = .ok (w * 100000000)) ∧
    parse_kas_to_sompi "100".data = .ok 10000000000 := by
  refine ⟨?_, by decide⟩
  intro W w hW hfit
  have hp0 : padVal [] = 0 := by decide
  have hafter : afterSplit W [] = .ok (w * 100000000) := by
    rw [afterSplit_digits hW (F := []) (by simp) (by simp), hp0, Nat.add_zero]
    exact if_pos hfit
  constructor
  · rw [parse_two_seg (parseU64_no_dot hW) (by simp) (parseU64_head hW) (by simp)]
    exact hafter
  · rw [parse_one_seg (parseU64_no_dot hW) (parseU64_ne_nil hW)
      (parseU64_head hW) (parseU64_last hW)]
    exact hafter

/-- Witness for C7 at `W = "100"`. -/
theorem convert_trailing_dot_equiv_witness :
    parse_kas_to_sompi ("100".data ++ ['.']) = .ok 10000000000 ∧
    parse_kas_to_sompi "100".data = .ok 10000000000 :=
  convert_trailing_dot_equiv.1 "100".data 100 (by decide) (by decide)

/-- C8: every input consisting only of whitespace — including the empty
string — is trimmed to nothing and rejected with the emptiness error before
any splitting or parsing. -/
theorem convert_whitespace_empty :
    ∀ s : List Char, (∀ c ∈ s, isWsChar c = true) →
      parse_kas_to_sompi s = .error "amount is empty" := by
  intro s h
  unfold parse_kas_to_sompi
  rw [trim_of_all_ws h]
  rfl

/-- Witness for C8 at the empty string and a three-space string. -/
theorem convert_whitespace_empty_witness :
    parse_kas_to_sompi "".data = .error "amount is empty" ∧
    parse_kas_to_sompi "   ".data = .error "amount is empty" :=
  ⟨convert_whitespace_empty "".data (by decide),
    convert_whitespace_empty "   ".data (by decide)⟩

lemma parseU64_minus (W : List Char) : parseU64 ('-' :: W) = none := by
  simp [parseU64, List.all_cons, (by decide : isDigitChar '-' = false)]

/-- C4 counterexample: the claim predicts failure for any sign character in
the whole segment, but a leading `'+'` is accepted by Rust's unsigned
integer parser, so `"+1"` converts successfully. -/
theorem sign_plus_accepted_cex :
    parse_kas_to_sompi "+1".data = .ok 100000000 ∧
    parse_kas_to_sompi "+1.5".data = .ok 150000000 := by
  constructor <;> decide

/-- C4 (amended): a leading `'-'` in the whole-number segment always fails
whole-part parsing with the invalid-whole-part error (shown both with and
without a fractional part), while a leading `'+'` is accepted by the
underlying unsigned parse. -/
theorem convert_minus_rejected :
    (∀ W F : List Char, '.' ∉ W → '.' ∉ F →
      (∀ c ∈ W, isWsChar c = false) → (∀ c ∈ F, isWsChar c = false) →
      parse_kas_to_sompi (('-' :: W) ++ '.' :: F) =
        .error "invalid amount: whole part is not a number") ∧
    (∀ W : List Char, '.' ∉ W → (∀ c ∈ W, isWsChar c = false) →
      parse_kas_to_sompi ('-' :: W) =
        .error "invalid amount: whole part is not a number") ∧
    parse_kas_to_sompi "+1".data = .ok 100000000 := by
  have hmem : ∀ (W : List Char), (∀ c ∈ W, isWsChar c = false) →
      ∀ c ∈ '-' :: W, isWsChar c = false := by
    intro W hW c hc
    rcases List.mem_cons.mp hc with rfl | hm
    · decide
    · exact hW c hm
  have hdot : ∀ (W : List Char), '.' ∉ W → '.' ∉ '-' :: W := by
    intro W hW hm
    rcases List.mem_cons.mp hm with e | hm2
    · exact absurd e (by decide)
    · exact hW hm2
  have hafter : ∀ (W : List Char), (∀ c ∈ W, isWsChar c = false) →
      ∀ F : List Char, afterSplit ('-' :: W) F =
        .error "invalid amount: whole part is not a number" := by
    intro W hW F
    unfold afterSplit
    rw [trim_of_all_nonws (hmem W hW), parseU64_minus]
  refine ⟨?_, ?_, by decide⟩
  · intro W F hW hF hWw hFw
    rw [parse_two_seg (hdot W hW) hF
        (fun c hc => hmem W hWw c (List.mem_of_mem_head? hc))
        (fun c hc => hFw c (List.mem_of_mem_getLast? hc))]
    exact hafter W hWw F
  · intro W hW hWw
    rw [parse_one_seg (hdot W hW) (by simp)
        (fun c hc => hmem W hWw c (List.mem_of_mem_head? hc))
        (fun c hc => hmem W hWw c (List.mem_of_mem_getLast? hc))]
    exact hafter W hWw []

/-- Witness for the amended C4 at `"-1.5"` and `"-1"`. -/
theorem convert_minus_rejected_witness :
    parse_kas_to_sompi ("-1".data ++ '.' :: "5".data) =
      .error "invalid amount: whole part is not a number" ∧
    parse_kas_to_sompi "-1".data =
      .error "invalid amount: whole part is not a number" :=
  ⟨convert_minus_rejected.1 "1".data "5".data (by decide) (by decide)
      (by decide) (by decide),
    convert_minus_rejected.2.1 "1".data (by decide) (by decide)⟩

/-- C6 counterexample: an input whose fractional segment has more than 8
characters does not always fail with the too-many-decimals error — the
whole part is parsed first, so `"x.123456789"` fails with the
invalid-whole-part error instead. -/
theorem frac_check_after_whole_cex :
    parse_kas_to_sompi "x.123456789".data =
      .error "invalid amount: whole part is not a number" ∧
    parse_kas_to_sompi "x.123456789".data ≠
      .error "invalid amount: max 8 decimal places" := by
  constructor <;> decide

/-- C6 (amended): for inputs with a single `'.'` whose whole part parses as
an unsigned 64-bit integer, a trimmed fractional segment longer than 8
characters fails with the too-many-decimals error, before any parsing of
the fractional digits; in particular `"1.123456789"` fails that way. -/
theorem convert_too_many_decimals :
    (∀ (W F : List Char) (w : Nat), parseU64 W = some w → '.' ∉ F →
      (∀ c ∈ F, isWsChar c = false) → 8 < F.length →
      parse_kas_to_sompi (W ++ '.' :: F) =
        .error "invalid amount: max 8 decimal places") ∧
    parse_kas_to_sompi "1.123456789".data =
      .error "invalid amount: max 8 decimal places" := by
  refine ⟨?_, by decide⟩
  intro W F w hW hFdot hFws hlen
  rw [parse_two_seg (parseU64_no_dot hW) hFdot (parseU64_head hW)
      (fun c hc => hFws c (List.mem_of_mem_getLast? hc))]
  unfold afterSplit
  rw [trim_of_all_nonws (fun c hc => (parseU64_chars hW c hc).1), hW]
  dsimp only
  rw [trim_of_all_nonws hFws]
  unfold parseFrac
  rw [if_pos hlen]

/-- Witness for the amended C6 at `W = "1"`, `F = "123456789"`. -/
theorem convert_too_many_decimals_witness :
    parse_kas_to_sompi ("1".data ++ '.' :: "123456789".data) =
      .error "invalid amount: max 8 decimal places" :=
  convert_too_many_decimals.1 "1".data "123456789".data 1 (by decide)
    (by decide) (by decide) (by decide)

lemma trim_concat_ws {W : List Char} (hne : W ≠ [])
    (h : ∀ c ∈ W, isWsChar c = false) : trimChars (W ++ [' ']) = W := by
  unfold trimChars ltrimChars rtrimChars
  rw [dropWhile_eq_self_of_head (p := isWsChar) (l := W ++ [' '])
    (by rw [List.head?_append_of_ne_nil _ hne]
        exact fun c hc => h c (List.mem_of_mem_head? hc))]
  rw [List.reverse_append]
  simp only [List.reverse_cons, List.reverse_nil, List.nil_append,
    List.singleton_append]
  rw [List.dropWhile_cons_of_pos (by decide : isWsChar ' ' = true)]
  rw [dropWhile_eq_self_of_head (p := isWsChar) (l := W.reverse)
    (by rw [List.head?_reverse]
        exact fun c hc => h c (List.mem_of_mem_getLast? hc))]
  exact List.reverse_reverse W

lemma trim_cons_ws {F : List Char} (h : ∀ c ∈ F, isWsChar c = false) :
    trimChars (' ' :: F) = F := by
  unfold trimChars ltrimChars rtrimChars
  rw [List.dropWhile_cons_of_pos (by decide : isWsChar ' ' = true)]
  rw [dropWhile_eq_self_of_head (p := isWsChar) (l := F)
    (fun c hc => h c (List.mem_of_mem_head? hc))]
  rw [dropWhile_eq_self_of_head (p := isWsChar) (l := F.reverse)
    (by rw [List.head?_reverse]
        exact fun c hc => h c (List.mem_of_mem_getLast? hc))]
  exact List.reverse_reverse F

/-- C9 (implicit): `parse_kas_to_sompi` trims whitespace around each
segment individually, not only around the whole input: whitespace adjacent
to the decimal point is discarded, so `"W . F"` converts exactly like
`"W.F"`; in particular `"1 . 5"` converts to `150000000`. -/
theorem convert_trims_segments :
    (∀ W F : List Char, W ≠ [] → F ≠ [] →
      (∀ c ∈ W, isWsChar c = false ∧ c ≠ '.') →
      (∀ c ∈ F, isWsChar c = false ∧ c ≠ '.') →
      parse_kas_to_sompi (W ++ ' ' :: '.' :: ' ' :: F) =
        parse_kas_to_sompi (W ++ '.' :: F)) ∧
    parse_kas_to_sompi "1 . 5".data = .ok 150000000 := by
  refine ⟨?_, by decide⟩
  intro W F hWne hFne hWc hFc
  have hWdot : '.' ∉ W := fun m => (hWc _ m).2 rfl
  have hFdot : '.' ∉ F := fun m => (hFc _ m).2 rfl
  have hWws : ∀ c ∈ W, isWsChar c = false := fun c hc => (hWc c hc).1
  have hFws : ∀ c ∈ F, isWsChar c = false := fun c hc => (hFc c hc).1
  have hassoc : W ++ ' ' :: '.' :: ' ' :: F = (W ++ [' ']) ++ '.' :: ' ' :: F := by
    simp
  rw [hassoc]
  rw [parse_two_seg
      (by intro hm
          rcases List.mem_append.mp hm with hm | hm
          · exact hWdot hm
          · simp at hm)
      (by intro hm
          rcases List.mem_cons.mp hm with e | hm2
          · exact absurd e (by decide)
          · exact hFdot hm2)
      (by rw [List.head?_append_of_ne_nil _ hWne]
          exact fun c hc => hWws c (List.mem_of_mem_head? hc))
      (by cases F with
          | nil => exact absurd rfl hFne
          | cons f fs =>
            rw [List.getLast?_cons_cons]
            exact fun c hc => hFws c (List.mem_of_mem_getLast? hc))]
  rw [parse_two_seg hWdot hFdot
      (fun c hc => hWws c (List.mem_of_mem_head? hc))
      (fun c hc => hFws c (List.mem_of_mem_getLast? hc))]
  unfold afterSplit
  rw [trim_concat_ws hWne hWws, trim_cons_ws hFws, trim_of_all_nonws hWws,
    trim_of_all_nonws hFws]

/-- Witness for C9 at `W = "1"`, `F = "5"`. -/
theorem convert_trims_segments_witness :
    parse_kas_to_sompi ("1".data ++ ' ' :: '.' :: ' ' :: "5".data) =
      parse_kas_to_sompi ("1".data ++ '.' :: "5".data) :=
  convert_trims_segments.1 "1".data "5".data (by decide) (by decide)
    (by decide) (by decide)

/-- C2: text inputs are resolved asymmetrically — a trimmed string that
contains `'.'` is delegated to the decimal (major-unit) converter, while a
dotless string is parsed directly as an unsigned 64-bit integer and
returned unchanged as a smallest-unit amount; in particular `"100"` gives
`100`, `"100.0"` gives `10000000000`, and `"12345"` gives `12345`. -/
theorem resolve_text_asymmetric :
    (∀ s : List Char, '.' ∈ trimChars s →
      deserialize_amount_per_claim (.KasString s) =
        parse_kas_to_sompi (trimChars s)) ∧
    (∀ (s : List Char) (v : Nat), '.' ∉ trimChars s →
      parseU64 (trimChars s) = some v →
      deserialize_amount_per_claim (.KasString s) = .ok v) ∧
    deserialize_amount_per_claim (.KasString "100".data) = .ok 100 ∧
    deserialize_amount_per_claim (.KasString "100.0".data) = .ok 10000000000 ∧
    deserialize_amount_per_claim (.KasString "12345".data) = .ok 12345 := by
  refine ⟨?_, ?_, by decide, by decide, by decide⟩
  · intro s hdot
    have hne : trimChars s ≠ [] := by
      intro e
      rw [e] at hdot
      exact absurd hdot (List.not_mem_nil '.')
    unfold deserialize_amount_per_claim
    dsimp only
    rw [if_neg (by simp [List.isEmpty_iff, hne])]
    rw [if_pos (by simp only [List.any_eq_true]
                   exact ⟨'.', hdot, by simp⟩)]
  · intro s v hdot hv
    have hne : trimChars s ≠ [] := parseU64_ne_nil hv
    unfold deserialize_amount_per_claim
    dsimp only
    rw [if_neg (by simp [List.isEmpty_iff, hne])]
    rw [if_neg (by simp only [List.any_eq_true]
                   rintro ⟨x, hx, e⟩
                   simp only [decide_eq_true_eq] at e
                   exact hdot (e ▸ hx))]
    rw [hv]

/-- Witness for C2 at `"2.5"` (dotted) and `"77"` (dotless). -/
theorem resolve_text_asymmetric_witness :
    deserialize_amount_per_claim (.KasString "2.5".data) =
      parse_kas_to_sompi (trimChars "2.5".data) ∧
    deserialize_amount_per_claim (.KasString "77".data) = .ok 77 :=
  ⟨resolve_text_asymmetric.1 "2.5".data (by decide),
    resolve_text_asymmetric.2.1 "77".data 77 (by decide) (by decide)⟩

/-- C5: every float that is not finite or is negative is rejected by the
resolver with the invalid-float error, before any delegation to the decimal
converter; the `F64` record carries exactly the observations the source
makes of an `f64` (`is_finite`, `< 0.0`, and the 8-decimal rendering). -/
theorem resolve_float_guard :
    ∀ f : F64, (f.isFinite = false ∨ f.isNeg = true) →
      deserialize_amount_per_claim (.KasFloat f) =
        .error "amount_per_claim must be a finite number >= 0" := by
  intro f h
  unfold deserialize_amount_per_claim
  rcases h with h | h <;> simp [h]

/-- Witness for C5 at models of `-1.0`, `NaN`, `+inf` and `-inf` (for `NaN`
the comparison `f < 0.0` is false, for `-inf` it is true). -/
theorem resolve_float_guard_witness :
    deserialize_amount_per_claim (.KasFloat ⟨true, true, "-1.00000000".data⟩) =
      .error "amount_per_claim must be a finite number >= 0" ∧
    deserialize_amount_per_claim (.KasFloat ⟨false, false, "NaN".data⟩) =
      .error "amount_per_claim must be a finite number >= 0" ∧
    deserialize_amount_per_claim (.KasFloat ⟨false, false, "inf".data⟩) =
      .error "amount_per_claim must be a finite number >= 0" ∧
    deserialize_amount_per_claim (.KasFloat ⟨false, true, "-inf".data⟩) =
      .error "amount_per_claim must be a finite number >= 0" :=
  ⟨resolve_float_guard _ (Or.inr rfl), resolve_float_guard _ (Or.inl rfl),
    resolve_float_guard _ (Or.inl rfl), resolve_float_guard _ (Or.inl rfl)⟩

lemma parseU64_lt_pow {l : List Char} {v : Nat} (h : parseU64 l = some v) :
    v < 10 ^ l.length := by
  obtain ⟨ds, hl, _, hdig, hval, _⟩ := parseU64_some_inv h
  have hlt := digitsToNat_lt hdig
  cases hl with
  | inl e =>
    subst e
    rw [← hval]
    exact hlt
  | inr e =>
    subst e
    calc v = digitsToNat ds := hval.symm
      _ < 10 ^ ds.length := hlt
      _ ≤ 10 ^ ('+' :: ds).length := by
          rw [List.length_cons]
          exact Nat.pow_le_pow_right (by norm_num) (Nat.le_succ _)

/-- C10 (implicit): whenever `parse_kas_to_sompi` succeeds with result `r`,
the parsed padded fractional value is strictly below `10^8`, so the result
decomposes losslessly: `r / 10^8` is the parsed whole part and `r % 10^8`
is the padded fractional value. -/
theorem convert_decomposable :
    ∀ (s : List Char) (r : Nat), parse_kas_to_sompi s = .ok r →
      ∃ w fv, wholePartOf s = some w ∧ fracValOf s = some fv ∧
        fv < 100000000 ∧ r = w * 100000000 + fv ∧
        r / 100000000 = w ∧ r % 100000000 = fv := by
  intro s r h
  unfold parse_kas_to_sompi at h
  split at h
  · exact Except.noConfusion h
  · unfold parseTrimmed at h
    split at h
    · exact Except.noConfusion h
    · cases hw : parseU64 (trimChars ((splitDot (trimChars s)).headD ['0'])) with
      | none =>
        rw [hw] at h
        exact Except.noConfusion h
      | some w =>
        rw [hw] at h
        dsimp only at h
        unfold parseFrac at h
        generalize hfs : trimChars (((splitDot (trimChars s))[1]?).getD []) = fs at h
        split at h
        · exact Except.noConfusion h
        · rename_i hlen
          have hlen' : fs.length ≤ 8 := by omega
          have hpadne : fs ++ List.replicate (8 - fs.length) '0' ≠ [] := by
            intro e
            have hle := congrArg List.length e
            rw [padded_length hlen'] at hle
            simp at hle
          rw [if_neg (by simp [List.isEmpty_iff, hpadne])] at h
          cases hf : parseU64 (fs ++ List.replicate (8 - fs.length) '0') with
          | none =>
            rw [hf] at h
            exact Except.noConfusion h
          | some fv =>
            rw [hf] at h
            dsimp only at h
            simp only [checked_mul, checked_add] at h
            by_cases hmul : w * 100000000 < 2 ^ 64
            · rw [if_pos hmul] at h
              dsimp only at h
              by_cases hadd : w * 100000000 + fv < 2 ^ 64
              · rw [if_pos hadd] at h
                have hr : w * 100000000 + fv = r := Except.ok.inj h
                have hfv8 : fv < 100000000 := by
                  have hp := parseU64_lt_pow hf
                  rw [padded_length hlen'] at hp
                  norm_num at hp
                  exact hp
                refine ⟨w, fv, hw, ?_, hfv8, hr.symm, by omega, by omega⟩
                unfold fracValOf
                rw [hfs]
                exact hf
              · rw [if_neg hadd] at h
                exact Except.noConfusion h
            · rw [if_neg hmul] at h
              exact Except.noConfusion h

/-- Witness for C10 at `"1.5"`: the output `150000000` splits back into
whole part `1` and padded fraction `50000000`. -/
theorem convert_decomposable_witness :
    ∃ w fv, wholePartOf "1.5".data = some w ∧ fracValOf "1.5".data = some fv ∧
      fv < 100000000 ∧ 150000000 = w * 100000000 + fv ∧
      150000000 / 100000000 = w ∧ 150000000 % 100000000 = fv :=
  convert_decomposable "1.5".data 150000000 (by decide)

/-- Sanity check of the remaining test vectors of the specification: more
than one decimal point is a distinct error, a float resolving through the
8-decimal rendering behaves like its decimal string, and integer inputs
pass through unchanged. -/
theorem spec_test_vectors :
    parse_kas_to_sompi "1.2.3".data =
      .error "invalid amount: too many decimal points" ∧
    deserialize_amount_per_claim (.KasFloat ⟨true, false, "0.00100000".data⟩) =
      .ok 100000 ∧
    deserialize_amount_per_claim (.Sompi 42) = .ok 42 := by
  refine ⟨by decide, by decide, rfl⟩
